import Mathlib

/-
Verification development for the curve-fitting pipeline in src/main.py.

The numeric code is embedded over the real numbers (IEEE floats idealised
as ℝ): every real number is finite, so the np.isfinite guard of the source
is vacuously satisfied in the model, and infeasibility is signalled by the
value ⊤ of EReal, the model of numpy's +inf.  The interp1d construction
error (a table with fewer than two rows raises ValueError, caught and
turned into +inf by the source's try/except) is modelled by an explicit
length test.
-/

namespace CurveFit

/-- Configuration constant T_MIN from src/main.py line 8. -/
def T_MIN : ℝ := 6

/-- Configuration constant T_MAX from src/main.py line 8. -/
def T_MAX : ℝ := 60

/-- Configuration constant RANDOM_SEED from src/main.py line 9. -/
def RANDOM_SEED : ℕ := 42

/-- Configuration constant POP_SIZE from src/main.py line 10. -/
def POP_SIZE : ℕ := 25

/-- Configuration constant MAX_ITER from src/main.py line 11. -/
def MAX_ITER : ℕ := 800

/-- Configuration constant N_STARTS from src/main.py line 12. -/
def N_STARTS : ℕ := 3

/-- Configuration constant USE_EUCLIDEAN from src/main.py line 13. -/
def USE_EUCLIDEAN : Bool := false

/-- np.clip(v, lo, hi): v clamped into [lo, hi]. -/
def clip (v lo hi : ℝ) : ℝ := min (max v lo) hi

/-- parametric_curve from src/main.py lines 16-22: maps the curve
parameter t and the parameter vector (theta_deg, M, X) to the 2-D point
(x, y).  np.deg2rad is multiplication by π/180. -/
noncomputable def parametric_curve (t theta_deg M X : ℝ) : ℝ × ℝ :=
  (t * Real.cos (theta_deg * (Real.pi / 180))
     - Real.exp (clip (M * |t|) (-30) 30) * Real.sin (0.3 * t)
         * Real.sin (theta_deg * (Real.pi / 180)) + X,
   42 + t * Real.sin (theta_deg * (Real.pi / 180))
     + Real.exp (clip (M * |t|) (-30) 30) * Real.sin (0.3 * t)
         * Real.cos (theta_deg * (Real.pi / 180)))

/-- The box constraint tested on src/main.py line 26. -/
def inBounds (theta M X : ℝ) : Prop :=
  0 ≤ theta ∧ theta ≤ 50 ∧ -0.08 ≤ M ∧ M ≤ 0.08 ∧ 0 ≤ X ∧ X ≤ 100

noncomputable instance (theta M X : ℝ) : Decidable (inBounds theta M X) := by
  unfold inBounds; infer_instance

/-- The curve sampled at every t value (src/main.py line 28, vectorised
evaluation producing the x_pred, y_pred arrays as a list of pairs). -/
noncomputable def predPoints (theta M X : ℝ) (t_vals : List ℝ) : List (ℝ × ℝ) :=
  t_vals.map (fun t => parametric_curve t theta M X)

/-- Comparison of predicted points by their x coordinate, the sort key of
np.argsort(x_pred) on src/main.py line 31. -/
def leX (a b : ℝ × ℝ) : Prop := a.1 ≤ b.1

noncomputable instance : DecidableRel leX := fun a b => by
  unfold leX; infer_instance

instance : IsTotal (ℝ × ℝ) leX := ⟨fun a b => le_total a.1 b.1⟩

instance : IsTrans (ℝ × ℝ) leX := ⟨fun _ _ _ h1 h2 => le_trans h1 h2⟩

/-- Sorting the predicted points by x (src/main.py lines 31-32). -/
noncomputable def sortByX (ps : List (ℝ × ℝ)) : List (ℝ × ℝ) :=
  List.insertionSort leX ps

/-- Linear interpolation through consecutive table rows, the in-range part
of scipy interp1d built on src/main.py lines 34-36. -/
noncomputable def interpSeg : List (ℝ × ℝ) → ℝ → ℝ
  | [], _ => 0
  | [p], _ => p.2
  | p :: q :: rest, t =>
      if t ≤ q.1 then p.2 + (q.2 - p.2) * (t - p.1) / (q.1 - p.1)
      else interpSeg (q :: rest) t

/-- The interpolant built on src/main.py lines 34-36: bounds_error=False
with fill_value=(y_sorted[0], y_sorted[-1]) means queries below the first
table x get the first y, queries above the last table x get the last y,
and in-range queries are linearly interpolated. -/
noncomputable def interpAt (ps : List (ℝ × ℝ)) (q : ℝ) : ℝ :=
  match ps with
  | [] => 0
  | p :: rest =>
      if q < p.1 then p.2
      else if (rest.getLastD p).1 < q then (rest.getLastD p).2
      else interpSeg (p :: rest) q

/-- The signed residuals dy = y_interp - y_data of src/main.py line 40,
with y_interp the interpolant evaluated at every x_data entry (line 37). -/
noncomputable def residuals (table : List (ℝ × ℝ)) (x_data y_data : List ℝ) : List ℝ :=
  ((x_data.map (fun xo => interpAt table xo)).zip y_data).map (fun p => p.1 - p.2)

/-- The residual aggregation of src/main.py line 41: sum of absolute
values when USE_EUCLIDEAN is false, sum of np.hypot(0, dy) when true. -/
noncomputable def errSum (useEuclidean : Bool) (dy : List ℝ) : ℝ :=
  if useEuclidean then (dy.map (fun d => Real.sqrt (0 ^ 2 + d ^ 2))).sum
  else (dy.map (fun d => |d|)).sum

/-- The regularisation factor reg of src/main.py line 42. -/
noncomputable def reg (M : ℝ) : ℝ := ((M - 0.015) / 0.02) ^ 2

/-- objective from src/main.py lines 24-43, parameterised by the
USE_EUCLIDEAN flag.  Out-of-box parameters return ⊤ (np.inf) before any
curve evaluation; a sorted table with fewer than two rows makes interp1d
construction raise, caught and mapped to ⊤; otherwise the value is the
aggregated residual plus 200 * reg. -/
noncomputable def objectiveWith (useEuclidean : Bool) (params : ℝ × ℝ × ℝ)
    (t_vals x_data y_data : List ℝ) : EReal :=
  if inBounds params.1 params.2.1 params.2.2 then
    if (sortByX (predPoints params.1 params.2.1 params.2.2 t_vals)).length < 2 then ⊤
    else
      ((errSum useEuclidean
          (residuals (sortByX (predPoints params.1 params.2.1 params.2.2 t_vals))
            x_data y_data)
        + 200 * reg params.2.1 : ℝ) : EReal)
  else ⊤

/-- objective as the source runs it, with the module constant
USE_EUCLIDEAN = False baked in. -/
noncomputable def objective (params : ℝ × ℝ × ℝ) (t_vals x_data y_data : List ℝ) : EReal :=
  objectiveWith USE_EUCLIDEAN params t_vals x_data y_data

/-- An optimiser result as used by the driver: a parameter vector res.x
and an objective value res.fun (called fval here, fun is reserved). -/
structure OptResult where
  x : ℝ × ℝ × ℝ
  fval : EReal

/-- The incumbent update of src/main.py lines 90-91: the first restart
always installs itself, later restarts replace the incumbent only on a
strictly lower objective value. -/
noncomputable def updateBest (best : Option OptResult) (res : OptResult) : Option OptResult :=
  match best with
  | none => some res
  | some b => if res.fval < b.fval then some res else some b

/-- The restart loop of src/main.py lines 62-91: runs in 1..N_STARTS are
executed in order, each calling differential_evolution (abstracted as the
function de from seed to result) with seed RANDOM_SEED + run * 3, folding
the incumbent update over the results. -/
noncomputable def globalStage (de : ℕ → OptResult) : Option OptResult :=
  (List.range' 1 N_STARTS).foldl
    (fun best run => updateBest best (de (RANDOM_SEED + run * 3))) none

/-- The local-refinement acceptance of src/main.py lines 96-97: the
Nelder-Mead result loc replaces the incumbent best only when loc.fun is
strictly lower. -/
noncomputable def acceptRefined (best loc : OptResult) : OptResult :=
  if loc.fval < best.fval then loc else best

/-- A concrete optimiser stub used only to witness the restart-loop
theorem at a closed input. -/
noncomputable def deWitness : ℕ → OptResult := fun n => ⟨(0, 0, 0), ((n : ℝ) : EReal)⟩

end CurveFit

namespace CurveFit

lemma objectiveWith_top_of_not_inBounds (useEuclidean : Bool) (theta M X : ℝ)
    (h : ¬ inBounds theta M X) (t_vals x_data y_data : List ℝ) :
    objectiveWith useEuclidean (theta, M, X) t_vals x_data y_data = ⊤ := by
  simp [objectiveWith, h]

lemma objectiveWith_val_of_inBounds (useEuclidean : Bool) (theta M X : ℝ)
    (h : inBounds theta M X) (t_vals x_data y_data : List ℝ)
    (ht : 2 ≤ t_vals.length) :
    objectiveWith useEuclidean (theta, M, X) t_vals x_data y_data =
      ((errSum useEuclidean
          (residuals (sortByX (predPoints theta M X t_vals)) x_data y_data)
        + 200 * reg M : ℝ) : EReal) := by
  have hlen : ¬ (sortByX (predPoints theta M X t_vals)).length < 2 := by
    unfold sortByX predPoints
    rw [List.length_insertionSort, List.length_map]
    omega
  simp [objectiveWith, h, hlen]

lemma errSum_false_nonneg (dy : List ℝ) : 0 ≤ errSum false dy := by
  unfold errSum
  simp only [Bool.false_eq_true, if_false]
  refine List.sum_nonneg ?_
  intro x hx
  obtain ⟨d, _, rfl⟩ := List.mem_map.mp hx
  exact abs_nonneg d

lemma errSum_hypot_eq_abs (dy : List ℝ) : errSum true dy = errSum false dy := by
  unfold errSum
  simp [Real.sqrt_sq_eq_abs]

/-- C7: the regularisation term added to the objective is
200 * ((M - 0.015) / 0.02)^2; it is non-negative for every M and vanishes
exactly at M = 0.015, so it is uniquely minimised there with value 0. -/
theorem reg_term_minimized_at_prior :
    (∀ M : ℝ, 200 * reg M = 200 * ((M - 0.015) / 0.02) ^ 2) ∧
    (∀ M : ℝ, 0 ≤ 200 * reg M) ∧
    (∀ M : ℝ, 200 * reg M = 0 ↔ M = 0.015) := by
  refine ⟨fun M => rfl, fun M => by unfold reg; positivity, fun M => ?_⟩
  unfold reg
  constructor
  · intro h
    have h2 : ((M - 0.015) / 0.02) ^ 2 = 0 := by linarith
    have h3 : (M - 0.015) / 0.02 = 0 := by
      exact pow_eq_zero_iff (two_ne_zero) |>.mp h2
    have h4 : M - 0.015 = 0 := by
      rcases div_eq_zero_iff.mp h3 with h | h
      · exact h
      · norm_num at h
    linarith
  · intro h
    subst h
    norm_num

/-- C8: evaluating the parametric curve at t = 0 yields y = 42 exactly,
for every theta in [0, 50], M in [-0.08, 0.08] and every X: the factor
sin(0.3 * 0) = 0 kills the exponential term and t * sin(theta_rad) = 0. -/
theorem curve_y_at_zero (theta M X : ℝ) (h1 : 0 ≤ theta) (h2 : theta ≤ 50)
    (h3 : -0.08 ≤ M) (h4 : M ≤ 0.08) :
    (parametric_curve 0 theta M X).2 = 42 := by
  unfold parametric_curve
  simp

/-- Witness for C8 at the concrete in-box point theta = 25, M = 0.015,
X = 50. -/
theorem curve_y_at_zero_witness : (parametric_curve 0 25 0.015 50).2 = 42 :=
  curve_y_at_zero 25 0.015 50 (by norm_num) (by norm_num) (by norm_num) (by norm_num)

/-- C1: whenever at least one coordinate of the parameter vector is
outside its box, the objective is exactly ⊤ (np.inf), for every choice of
t_vals, x_data and y_data — the bounds test on line 26 fires before the
curve is ever evaluated, so the result does not depend on the data. -/
theorem objective_out_of_bounds_top (theta M X : ℝ) (h : ¬ inBounds theta M X)
    (t_vals x_data y_data : List ℝ) :
    objective (theta, M, X) t_vals x_data y_data = ⊤ := by
  unfold objective
  exact objectiveWith_top_of_not_inBounds USE_EUCLIDEAN theta M X h t_vals x_data y_data

/-- Witness for C1 at theta = 51 (above its upper bound 50). -/
theorem objective_out_of_bounds_top_witness :
    objective (51, 0, 0) [6, 60] [1] [2] = ⊤ :=
  objective_out_of_bounds_top 51 0 0 (by norm_num [inBounds]) [6, 60] [1] [2]

/-- C2: with at least two t samples, the objective of any in-bounds
parameter vector is a finite non-negative real (coerced into EReal), and
of any out-of-bounds vector is ⊤.  In the real-number model every curve
sample is finite, so the numerically degenerate branches of the source
(non-finite samples, interpolation failure) cannot fire here. -/
theorem objective_invariant (theta M X : ℝ) (t_vals x_data y_data : List ℝ)
    (ht : 2 ≤ t_vals.length) :
    (inBounds theta M X →
      ∃ r : ℝ, 0 ≤ r ∧ objective (theta, M, X) t_vals x_data y_data = (r : EReal)) ∧
    (¬ inBounds theta M X → objective (theta, M, X) t_vals x_data y_data = ⊤) := by
  constructor
  · intro h
    refine ⟨errSum false (residuals (sortByX (predPoints theta M X t_vals)) x_data y_data)
      + 200 * reg M, ?_, ?_⟩
    · have h1 := errSum_false_nonneg
        (residuals (sortByX (predPoints theta M X t_vals)) x_data y_data)
      have h2 : 0 ≤ reg M := by unfold reg; positivity
      linarith
    · unfold objective
      exact objectiveWith_val_of_inBounds false theta M X h t_vals x_data y_data ht
  · intro h
    unfold objective
    exact objectiveWith_top_of_not_inBounds USE_EUCLIDEAN theta M X h t_vals x_data y_data

/-- Witness for C2 at the in-box point theta = 25, M = 0.015, X = 50 with
two t samples. -/
theorem objective_invariant_witness :
    ∃ r : ℝ, 0 ≤ r ∧ objective (25, 0.015, 50) [6, 60] [1] [2] = (r : EReal) :=
  (objective_invariant 25 0.015 50 [6, 60] [1] [2] (by norm_num)).1
    (by norm_num [inBounds])

/-- C9: the objective is total — on every parameter vector and every data
it returns a value that is either ⊤ (np.inf) or a finite real; every kind
of infeasibility is signalled through the returned value, never through a
fault. -/
theorem objective_total (params : ℝ × ℝ × ℝ) (t_vals x_data y_data : List ℝ) :
    objective params t_vals x_data y_data = ⊤ ∨
      ∃ r : ℝ, objective params t_vals x_data y_data = (r : EReal) := by
  unfold objective objectiveWith
  by_cases h : inBounds params.1 params.2.1 params.2.2
  · by_cases hlen : (sortByX (predPoints params.1 params.2.1 params.2.2 t_vals)).length < 2
    · left; simp [h, hlen]
    · right
      exact ⟨errSum USE_EUCLIDEAN
        (residuals (sortByX (predPoints params.1 params.2.1 params.2.2 t_vals))
          x_data y_data) + 200 * reg params.2.1, by simp [h, hlen]⟩
  · left; simp [h]

/-- C5: on every feasible evaluation the objective decomposes as the sum
over observation points of the absolute difference between interpolated
and observed y, plus the regularisation term — the L1 aggregation is a
sum of absolute differences, not a mean. -/
theorem objective_L1_decomposition (theta M X : ℝ) (h : inBounds theta M X)
    (t_vals x_data y_data : List ℝ) (ht : 2 ≤ t_vals.length) :
    objective (theta, M, X) t_vals x_data y_data =
      (((((x_data.map (fun xo => interpAt (sortByX (predPoints theta M X t_vals)) xo)).zip
            y_data).map (fun p => |p.1 - p.2|)).sum
        + 200 * ((M - 0.015) / 0.02) ^ 2 : ℝ) : EReal) := by
  unfold objective
  rw [objectiveWith_val_of_inBounds USE_EUCLIDEAN theta M X h t_vals x_data y_data ht]
  rw [EReal.coe_eq_coe_iff]
  unfold USE_EUCLIDEAN errSum residuals reg
  simp [List.map_map, Function.comp_def]

/-- Witness for C5 at theta = 25, M = 0.015, X = 50 with two t samples
and one observation. -/
theorem objective_L1_decomposition_witness :
    objective (25, 0.015, 50) [6, 60] [1] [2] =
      (((((([1] : List ℝ).map
            (fun xo => interpAt (sortByX (predPoints 25 0.015 50 [6, 60])) xo)).zip
          ([2] : List ℝ)).map (fun p => |p.1 - p.2|)).sum
        + 200 * ((0.015 - 0.015) / 0.02) ^ 2 : ℝ) : EReal) :=
  objective_L1_decomposition 25 0.015 50 (by norm_num [inBounds]) [6, 60] [1] [2]
    (by norm_num)

/-- C10: the two residual-aggregation branches of line 41 agree — for
every residual list dy the hypot branch sums sqrt(0^2 + d^2) = abs d, so
the objective is the same function whether USE_EUCLIDEAN is true or
false. -/
theorem euclidean_flag_refinement (params : ℝ × ℝ × ℝ) (t_vals x_data y_data : List ℝ) :
    (∀ dy : List ℝ, errSum true dy = errSum false dy) ∧
    objectiveWith true params t_vals x_data y_data
      = objectiveWith false params t_vals x_data y_data := by
  refine ⟨errSum_hypot_eq_abs, ?_⟩
  unfold objectiveWith
  by_cases h : inBounds params.1 params.2.1 params.2.2
  · by_cases hlen : (sortByX (predPoints params.1 params.2.1 params.2.2 t_vals)).length < 2
    · simp [h, hlen]
    · simp [h, hlen, errSum_hypot_eq_abs]
  · simp [h]

/-- C3: the result accepted after Nelder-Mead refinement never has a
larger objective value than the global-search incumbent; the refined
point replaces the incumbent exactly when its value is strictly lower,
and otherwise the incumbent is kept unchanged. -/
theorem refinement_acceptance (best loc : OptResult) :
    (acceptRefined best loc).fval ≤ best.fval ∧
    (loc.fval < best.fval → acceptRefined best loc = loc) ∧
    (¬ loc.fval < best.fval → acceptRefined best loc = best) := by
  unfold acceptRefined
  by_cases h : loc.fval < best.fval
  · simp [h, le_of_lt h]
  · simp [h]

/-- Witness for C3: a strictly better refined value (3 below 5) is
accepted. -/
theorem refinement_acceptance_witness :
    acceptRefined ⟨(0, 0, 0), ((5 : ℝ) : EReal)⟩ ⟨(1, 1, 1), ((3 : ℝ) : EReal)⟩
      = ⟨(1, 1, 1), ((3 : ℝ) : EReal)⟩ :=
  (refinement_acceptance ⟨(0, 0, 0), ((5 : ℝ) : EReal)⟩
      ⟨(1, 1, 1), ((3 : ℝ) : EReal)⟩).2.1
    (by show ((3 : ℝ) : EReal) < ((5 : ℝ) : EReal)
        exact_mod_cast (by norm_num : (3 : ℝ) < 5))

lemma foldl_updateBest_some (l : List OptResult) (b : OptResult) :
    ∃ c, l.foldl updateBest (some b) = some c ∧ (c = b ∨ c ∈ l) ∧
      c.fval ≤ b.fval ∧ ∀ r ∈ l, c.fval ≤ r.fval := by
  induction l generalizing b with
  | nil => exact ⟨b, rfl, Or.inl rfl, le_refl _, by simp⟩
  | cons a t ih =>
    by_cases h : a.fval < b.fval
    · obtain ⟨c, hc, hmem, hle, hall⟩ := ih a
      refine ⟨c, ?_, ?_, hle.trans h.le, ?_⟩
      · simpa [updateBest, h] using hc
      · rcases hmem with h1 | h1
        · exact Or.inr (by simp [h1])
        · exact Or.inr (List.mem_cons_of_mem a h1)
      · intro r hr
        rcases List.mem_cons.mp hr with h1 | h1
        · exact h1 ▸ hle
        · exact hall r h1
    · obtain ⟨c, hc, hmem, hle, hall⟩ := ih b
      refine ⟨c, ?_, ?_, hle, ?_⟩
      · simpa [updateBest, h] using hc
      · rcases hmem with h1 | h1
        · exact Or.inl h1
        · exact Or.inr (List.mem_cons_of_mem a h1)
      · intro r hr
        rcases List.mem_cons.mp hr with h1 | h1
        · exact h1 ▸ (hle.trans (not_lt.mp h))
        · exact hall r h1

lemma foldl_updateBest_none (a : OptResult) (t : List OptResult) :
    ∃ c, (a :: t).foldl updateBest none = some c ∧ c ∈ a :: t ∧
      ∀ r ∈ a :: t, c.fval ≤ r.fval := by
  obtain ⟨c, hc, hmem, hle, hall⟩ := foldl_updateBest_some t a
  refine ⟨c, ?_, ?_, ?_⟩
  · simpa [updateBest] using hc
  · rcases hmem with h1 | h1
    · exact h1 ▸ List.mem_cons_self a t
    · exact List.mem_cons_of_mem a h1
  · intro r hr
    rcases List.mem_cons.mp hr with h1 | h1
    · exact h1 ▸ hle
    · exact hall r h1

lemma getLastD_mem (l : List (ℝ × ℝ)) (a : ℝ × ℝ) : l.getLastD a ∈ a :: l := by
  induction l generalizing a with
  | nil => simp [List.getLastD_nil]
  | cons b t ih =>
    rw [List.getLastD_cons]
    exact List.mem_cons_of_mem a (ih b)

lemma sorted_head_le (p : ℝ × ℝ) (rest : List (ℝ × ℝ))
    (hs : List.Sorted leX (p :: rest)) :
    ∀ q ∈ p :: rest, p.1 ≤ q.1 := by
  intro q hq
  rcases List.mem_cons.mp hq with h | h
  · exact h ▸ le_refl _
  · exact (List.sorted_cons.mp hs).1 q h

lemma sorted_le_getLastD (l : List (ℝ × ℝ)) (a : ℝ × ℝ)
    (hs : List.Sorted leX (a :: l)) :
    ∀ q ∈ a :: l, q.1 ≤ (l.getLastD a).1 := by
  induction l generalizing a with
  | nil =>
    intro q hq
    simp only [List.mem_singleton] at hq
    simp [List.getLastD_nil, hq]
  | cons b t ih =>
    intro q hq
    rw [List.getLastD_cons]
    have hs' : List.Sorted leX (b :: t) := (List.sorted_cons.mp hs).2
    rcases List.mem_cons.mp hq with h | h
    · subst h
      have hab : leX q b := (List.sorted_cons.mp hs).1 b (List.mem_cons_self b t)
      exact le_trans hab (ih b hs' b (List.mem_cons_self b t))
    · exact ih b hs' q h

lemma interpAt_below (p : ℝ × ℝ) (rest : List (ℝ × ℝ)) (q : ℝ) (h : q < p.1) :
    interpAt (p :: rest) q = p.2 := by
  unfold interpAt
  simp [h]

lemma interpAt_above (p : ℝ × ℝ) (rest : List (ℝ × ℝ)) (q : ℝ)
    (h1 : ¬ q < p.1) (h2 : (rest.getLastD p).1 < q) :
    interpAt (p :: rest) q = (rest.getLastD p).2 := by
  have h2' := h2
  simp only [List.getLastD_eq_getLast?] at h2'
  unfold interpAt
  simp [h1, h2']

/-- C6: the interpolant the objective builds from the x-sorted predicted
points extrapolates flat: a query below every predicted x returns the y
of a predicted point with smallest x, a query above every predicted x
returns the y of a predicted point with largest x — it neither fails nor
extrapolates linearly. -/
theorem interp_flat_extrapolation (theta M X : ℝ) (t_vals : List ℝ)
    (hne : t_vals ≠ []) (q : ℝ) :
    ((∀ p ∈ predPoints theta M X t_vals, q < p.1) →
      ∃ pmin ∈ predPoints theta M X t_vals,
        (∀ p ∈ predPoints theta M X t_vals, pmin.1 ≤ p.1) ∧
        interpAt (sortByX (predPoints theta M X t_vals)) q = pmin.2) ∧
    ((∀ p ∈ predPoints theta M X t_vals, p.1 < q) →
      ∃ pmax ∈ predPoints theta M X t_vals,
        (∀ p ∈ predPoints theta M X t_vals, p.1 ≤ pmax.1) ∧
        interpAt (sortByX (predPoints theta M X t_vals)) q = pmax.2) := by
  set ps := predPoints theta M X t_vals with hps
  have hpsne : ps ≠ [] := by
    rw [hps]
    unfold predPoints
    simp [hne]
  have hperm : List.Perm (sortByX ps) ps := List.perm_insertionSort leX ps
  have hsort : List.Sorted leX (sortByX ps) := List.sorted_insertionSort leX ps
  have hsne : sortByX ps ≠ [] := by
    intro h0
    apply hpsne
    have hlen := hperm.length_eq
    rw [h0] at hlen
    exact List.length_eq_zero.mp hlen.symm
  obtain ⟨p0, rest, hcons⟩ := List.exists_cons_of_ne_nil hsne
  have hp0s : p0 ∈ sortByX ps := by
    rw [hcons]
    exact List.mem_cons_self p0 rest
  have hp0 : p0 ∈ ps := hperm.mem_iff.mp hp0s
  constructor
  · intro hbelow
    refine ⟨p0, hp0, ?_, ?_⟩
    · intro p hp
      have hp' : p ∈ sortByX ps := hperm.mem_iff.mpr hp
      exact sorted_head_le p0 rest (hcons ▸ hsort) p (hcons ▸ hp')
    · rw [hcons]
      exact interpAt_below p0 rest q (hbelow p0 hp0)
  · intro habove
    have hplmem : rest.getLastD p0 ∈ sortByX ps := by
      rw [hcons]
      exact getLastD_mem rest p0
    have hplps : rest.getLastD p0 ∈ ps := hperm.mem_iff.mp hplmem
    refine ⟨rest.getLastD p0, hplps, ?_, ?_⟩
    · intro p hp
      have hp' : p ∈ sortByX ps := hperm.mem_iff.mpr hp
      exact sorted_le_getLastD rest p0 (hcons ▸ hsort) p (hcons ▸ hp')
    · rw [hcons]
      refine interpAt_above p0 rest q ?_ ?_
      · exact not_lt.mpr (le_of_lt (habove p0 hp0))
      · exact habove (rest.getLastD p0) hplps

/-- Witness for C6: with theta = M = X = 0 the predicted x equals t, so
for t_vals = [6, 60] the query 0 lies below every predicted x. -/
theorem interp_flat_extrapolation_witness :
    ∃ pmin ∈ predPoints 0 0 0 [6, 60],
      (∀ p ∈ predPoints 0 0 0 [6, 60], pmin.1 ≤ p.1) ∧
      interpAt (sortByX (predPoints 0 0 0 [6, 60])) 0 = pmin.2 :=
  (interp_flat_extrapolation 0 0 0 [6, 60] (by simp) 0).1 (by
    intro p hp
    simp [predPoints, parametric_curve, clip] at hp
    rcases hp with h | h <;> rw [h] <;> norm_num)

/-- C4: after the restart loop the incumbent is some restart's result
with the lowest objective value among all restarts, where restart run
(run = 1..N_STARTS) was executed with the deterministic seed
RANDOM_SEED + run * 3 derived from the base seed and the restart
index. -/
theorem global_stage_minimum (de : ℕ → OptResult) :
    ∃ b, globalStage de = some b ∧
      b ∈ (List.range' 1 N_STARTS).map (fun run => de (RANDOM_SEED + run * 3)) ∧
      ∀ r ∈ (List.range' 1 N_STARTS).map (fun run => de (RANDOM_SEED + run * 3)),
        b.fval ≤ r.fval := by
  have hfold : globalStage de =
      ((List.range' 1 N_STARTS).map (fun run => de (RANDOM_SEED + run * 3))).foldl
        updateBest none := by
    unfold globalStage
    rw [List.foldl_map]
  have hlist : (List.range' 1 N_STARTS).map (fun run => de (RANDOM_SEED + run * 3))
      = de (RANDOM_SEED + 1 * 3)
          :: [de (RANDOM_SEED + 2 * 3), de (RANDOM_SEED + 3 * 3)] := rfl
  rw [hfold, hlist]
  exact foldl_updateBest_none _ _

/-- Witness for C4 at the concrete optimiser stub deWitness. -/
theorem global_stage_minimum_witness :
    ∃ b, globalStage deWitness = some b ∧
      b ∈ (List.range' 1 N_STARTS).map (fun run => deWitness (RANDOM_SEED + run * 3)) ∧
      ∀ r ∈ (List.range' 1 N_STARTS).map (fun run => deWitness (RANDOM_SEED + run * 3)),
        b.fval ≤ r.fval :=
  global_stage_minimum deWitness

end CurveFit
